import Mathlib

/-!
# geofriend: the Tile38 autoloader (`tile38.go`)

A shallow embedding of `LoadTile38` and `t38AutoloadDataFile`, and the
properties of the field transform, the per-feature emission loop and the
per-file dispatch that the specification states.

Conventions of the embedding:

* a Go `interface{}` attribute value is a `Value`; a `float64` is identified by
  the text `%v` prints for it, which is all the loader ever reads of it, and a
  value of any other kind by a tag together with that text;
* a Go `map[string]interface{}` that is only iterated (`feature.Properties` as
  decoded) is the list of its entries in the order the `range` visits them;
  the map that is written (`properties`) is a list with unique keys;
* the functions of `go-stockutil`, `encoding/json`, `compress/gzip`, `os`,
  `redigo` and `toml` are fields of `Lib` and `Env`: every theorem that
  quantifies over them holds for whatever those libraries do;
* log output is not part of the model.
-/

set_option autoImplicit false

namespace Geofriend

/-! ## Values -/

/-- A decoded attribute value (`interface{}`). -/
inductive Value where
  | null
  | bool (b : Bool)
  | int (n : Int)
  | float (text : String)
  | str (s : String)
  | other (tag : Nat) (text : String)
  deriving DecidableEq, Repr

/-- Whether the value is one of Go's numeric kinds. -/
def Value.isNumber : Value → Bool
  | .int _ => true
  | .float _ => true
  | _ => false

/-- Whether the value is a Go string. -/
def Value.isString : Value → Bool
  | .str _ => true
  | _ => false

/-- The decimal digits of a natural number, as `%v` prints an integer. -/
def natText (n : Nat) : String := String.mk (Nat.toDigits 10 n)

/-- The text of `fmt.Sprintf("%v", v)`. A float and a value of any other kind
(array, object, time) carry the text they print as. -/
def Sprintf : Value → String
  | .null => "<nil>"
  | .bool true => "true"
  | .bool false => "false"
  | .int (Int.ofNat n) => natText n
  | .int (Int.negSucc n) => "-" ++ natText (n + 1)
  | .float text => text
  | .str s => s
  | .other _ text => text

/-- The function `strings.TrimLeft(s, "0")`: drop every leading zero character. -/
def TrimLeft (s : String) : String := String.mk (s.data.dropWhile (fun c => c == '0'))

/-- Go's `len` of a string: its length in bytes. -/
def len (s : String) : Nat := s.utf8ByteSize

/-! ## The library functions the loader calls -/

/-- The functions of `go-stockutil` and `strings` that `t38AutoloadDataFile`
applies to keys and values. -/
structure Lib where
  Hyphenate : String → String
  Camelize : String → String
  Underscore : String → String
  ToUpper : String → String
  ToLower : String → String
  IsNumeric : String → Bool
  Autotype : Value → Value
  IsEmpty : Value → Bool

/-- Modelled from the spec: `sliceutil.ContainsString` of go-stockutil (not under
src/), the test of step 3 that the key is in the list. -/
def ContainsString (list : List String) (e : String) : Bool := list.contains e

/-! ## Field mappings -/

/-- The struct `GeoFieldMapping`. -/
structure GeoFieldMapping where
  DisplayKeys : List String
  OnlyFields : List String
  NormalizeKeys : String
  Rename : List (List String)
  deriving DecidableEq, Repr

/-- The struct `GeoFieldMappings`: `Types` is the map from dataset name to mapping. -/
structure GeoFieldMappings where
  Types : List (String × GeoFieldMapping)
  deriving DecidableEq, Repr

/-- The map read `fieldmap.Types[dataset]`. -/
def GeoFieldMappings.get (fieldmap : GeoFieldMappings) (dataset : String) :
    Option GeoFieldMapping :=
  (fieldmap.Types.find? (fun e => e.1 == dataset)).map Prod.snd

/-! ## The attribute transform (lines 147-195) -/

/-- The `switch mapping.NormalizeKeys` of lines 152-163; a mode that is none of
the cases leaves the key as it is. -/
def normalizeKey (lib : Lib) (mode : String) (k : String) : String :=
  if mode = "hyphenate" then lib.Hyphenate k
  else if mode = "camelize" then lib.Camelize k
  else if mode = "underscore" ∨ mode = "" then lib.Underscore k
  else if mode = "upper" then lib.ToUpper k
  else if mode = "lower" then lib.ToLower k
  else k

/-- One iteration of the rename loop, lines 167-169. -/
def renameStep (k : String) (pair : List String) : String :=
  match pair with
  | [src, dst] => if k = src ∧ dst ≠ "" then dst else k
  | _ => k

/-- The rename loop of lines 166-170: every pair is tried, in order, against the
key as renamed so far. -/
def renameKey (rename : List (List String)) (k : String) : String :=
  rename.foldl renameStep k

/-- The key an attribute is stored under: normalized, then renamed. -/
def finalKey (lib : Lib) (mapping : GeoFieldMapping) (k : String) : String :=
  renameKey mapping.Rename (normalizeKey lib mapping.NormalizeKeys k)

/-- The test of line 173, negated: the attribute is kept. -/
def allowed (mapping : GeoFieldMapping) (k : String) : Bool :=
  !(decide (mapping.OnlyFields.length > 0) && !ContainsString mapping.OnlyFields k)

/-- The map write `properties[k] = v`. -/
def mapSet (m : List (String × Value)) (k : String) (v : Value) : List (String × Value) :=
  m.filter (fun e => e.1 != k) ++ [(k, v)]

/-- The map read `properties[k]`. -/
def mapGet (m : List (String × Value)) (k : String) : Option Value :=
  (m.find? (fun e => e.1 == k)).map Prod.snd

/-- The value the numeric branch stores, lines 178-185. -/
def numericValue (lib : Lib) (trim : String) : Value :=
  if len trim = 5 then Value.str trim else lib.Autotype (Value.str trim)

/-- The state of the attribute loop: `properties` and `fieldargs`. The flat
`fieldargs` slice `k, v, k, v, ...` is kept as the list of its pairs. -/
structure LoopState where
  properties : List (String × Value)
  fieldargs : List (String × Value)
  deriving DecidableEq, Repr

/-- The body of `for k, v := range feature.Properties`, lines 150-191. -/
def processAttribute (lib : Lib) (mapping : GeoFieldMapping) (st : LoopState)
    (kv : String × Value) : LoopState :=
  let trim := TrimLeft (Sprintf kv.2)
  let k := finalKey lib mapping kv.1
  if allowed mapping k then
    if lib.IsNumeric trim then
      let v := numericValue lib trim
      { properties := mapSet st.properties k v, fieldargs := st.fieldargs ++ [(k, v)] }
    else
      { properties := mapSet st.properties k (lib.Autotype kv.2), fieldargs := st.fieldargs }
  else st

/-- The attribute loop over the entries of `feature.Properties` in visiting order. -/
def attributeLoop (lib : Lib) (mapping : GeoFieldMapping) (raw : List (String × Value)) :
    LoopState :=
  raw.foldl (processAttribute lib mapping) { properties := [], fieldargs := [] }

/-- Modelled from the spec: `maputil.Compact` of go-stockutil (not under src/),
the compaction pass of step 5: the keys whose value is null or empty are
removed, the other entries are kept. -/
def Compact (lib : Lib) (m : List (String × Value)) : List (String × Value) :=
  m.filter (fun e => !lib.IsEmpty e.2)

/-- The cleaned attributes assigned to `feature.Properties` at line 195. -/
def cleanedAttributes (lib : Lib) (mapping : GeoFieldMapping) (raw : List (String × Value)) :
    List (String × Value) :=
  Compact lib (attributeLoop lib mapping raw).properties

/-- The `fieldargs` handed to `FSET` at line 204. -/
def indexableFields (lib : Lib) (mapping : GeoFieldMapping) (raw : List (String × Value)) :
    List (String × Value) :=
  (attributeLoop lib mapping raw).fieldargs

/-! ## Paths (`path/filepath`, `strings`) -/

/-- The function `os.IsPathSeparator`. -/
def IsPathSeparator (c : Char) : Bool := c == '/'

/-- The loop of `filepath.Ext`, run over the reversed path: it walks back from
the last character, stops at a separator, and returns from the first dot on. -/
def extScan : List Char → List Char → List Char
  | [], _ => []
  | c :: rest, acc =>
    if IsPathSeparator c then []
    else if c == '.' then c :: acc
    else extScan rest (c :: acc)

/-- The function `filepath.Ext`. -/
def Ext (path : String) : String := String.mk (extScan path.data.reverse [])

/-- The last element of a path, as `filepath.Base` finds it, on characters. -/
def baseChars (path : List Char) : List Char :=
  if path = [] then ['.']
  else
    let stripped := path.reverse.dropWhile IsPathSeparator
    let last := (stripped.takeWhile (fun c => !IsPathSeparator c)).reverse
    if last = [] then ['/'] else last

/-- The function `filepath.Base`. -/
def Base (path : String) : String := String.mk (baseChars path.data)

/-- The function `strings.TrimSuffix`, on characters. -/
def trimSuffixChars (s suffix : List Char) : List Char :=
  if suffix.isSuffixOf s then s.take (s.length - suffix.length) else s

/-- The function `strings.TrimSuffix`. -/
def TrimSuffix (s suffix : String) : String := String.mk (trimSuffixChars s.data suffix.data)

/-- The dataset name of lines 110-111: the base name without its extension. -/
def datasetName (filename : String) : String := TrimSuffix (Base filename) (Ext filename)

/-! ### Facts about `Ext` and `datasetName`

The last of them is what makes the recursion of `t38AutoloadDataFile` end. -/

theorem extScan_dot (pre rest acc : List Char)
    (hpre : ∀ c ∈ pre, IsPathSeparator c = false ∧ (c == '.') = false) :
    extScan (pre ++ '.' :: rest) acc = '.' :: (pre.reverse ++ acc) := by
  induction pre generalizing acc with
  | nil => simp [extScan, IsPathSeparator]
  | cons c pre ih =>
    have hc := hpre c (List.mem_cons_self _ _)
    have ih2 := ih (c :: acc) (fun d hd => hpre d (List.mem_cons_of_mem _ hd))
    simp only [List.cons_append, extScan, hc.1, hc.2, List.reverse_cons,
      List.append_assoc, List.singleton_append]
    simpa using ih2

theorem extScan_inv (r acc : List Char) (h : extScan r acc ≠ []) :
    ∃ pre rest, r = pre ++ '.' :: rest ∧
      (∀ c ∈ pre, IsPathSeparator c = false ∧ (c == '.') = false) := by
  induction r generalizing acc with
  | nil => simp [extScan] at h
  | cons c r ih =>
    by_cases hs : IsPathSeparator c = true
    · simp [extScan, hs] at h
    · have hs2 : IsPathSeparator c = false := by simpa using hs
      by_cases hd : (c == '.') = true
      · have hc : c = '.' := by simpa using hd
        exact ⟨[], r, by simp [hc], by simp⟩
      · have hd2 : (c == '.') = false := by simpa using hd
        have h2 : extScan r (c :: acc) ≠ [] := by
          simpa [extScan, hs2, hd2] using h
        obtain ⟨pre, rest, hr, hpre⟩ := ih (c :: acc) h2
        refine ⟨c :: pre, rest, by simp [hr], ?_⟩
        intro d hdm
        rcases List.mem_cons.mp hdm with rfl | hdm
        · exact ⟨hs2, hd2⟩
        · exact hpre d hdm

/-- The extension and the dataset name of a path whose reversed characters are
`pre`, a dot, `rest`, with neither a dot nor a separator in `pre`. -/
theorem ext_datasetName_of_reverse (path : String) (pre rest : List Char)
    (hr : path.data.reverse = pre ++ '.' :: rest)
    (hpre : ∀ c ∈ pre, IsPathSeparator c = false ∧ (c == '.') = false) :
    Ext path = String.mk ('.' :: pre.reverse) ∧
    datasetName path =
      String.mk ((rest.takeWhile (fun c => !IsPathSeparator c)).reverse) := by
  have hext : Ext path = String.mk ('.' :: pre.reverse) := by
    simp [Ext, hr, extScan_dot pre rest [] hpre]
  refine ⟨hext, ?_⟩
  have hne : path.data ≠ [] := by
    intro h0
    rw [h0] at hr
    simp at hr
  have hdrop : (pre ++ '.' :: rest).dropWhile IsPathSeparator = pre ++ '.' :: rest := by
    cases pre with
    | nil => simp [List.dropWhile, IsPathSeparator]
    | cons c pre =>
      have hc := hpre c (List.mem_cons_self _ _)
      simp [List.dropWhile, hc.1]
  have htake : (pre ++ '.' :: rest).takeWhile (fun c => !IsPathSeparator c) =
      pre ++ '.' :: rest.takeWhile (fun c => !IsPathSeparator c) := by
    rw [List.takeWhile_append_of_pos]
    · simp [List.takeWhile, IsPathSeparator]
    · intro c hc
      simp [(hpre c hc).1]
  have hbase : baseChars path.data =
      (rest.takeWhile (fun c => !IsPathSeparator c)).reverse ++ '.' :: pre.reverse := by
    simp [baseChars, hne, hr, hdrop, htake]
  simp only [datasetName, TrimSuffix, Base, hext, hbase, trimSuffixChars]
  have hsuf : ('.' :: pre.reverse).isSuffixOf
      ((rest.takeWhile (fun c => !IsPathSeparator c)).reverse ++ '.' :: pre.reverse) = true := by
    rw [List.isSuffixOf_iff_suffix]
    exact List.suffix_append _ _
  rw [if_pos hsuf]
  congr 1
  have hlen : ((rest.takeWhile (fun c => !IsPathSeparator c)).reverse ++ '.' :: pre.reverse).length
      - ('.' :: pre.reverse).length
      = ((rest.takeWhile (fun c => !IsPathSeparator c)).reverse).length := by
    simp
  rw [hlen, List.take_left]

/-- The recursive call of line 119 is on a strictly shorter file name. -/
theorem datasetName_length_lt (filename : String) (h : Ext filename ≠ "") :
    (datasetName filename).length < filename.length := by
  have h2 : extScan filename.data.reverse [] ≠ [] := by
    intro h0
    apply h
    simp only [Ext, h0]
  obtain ⟨pre, rest, hr, hpre⟩ := extScan_inv _ _ h2
  have hd := (ext_datasetName_of_reverse filename pre rest hr hpre).2
  have hlen : filename.length = pre.length + (rest.length + 1) := by
    have h3 := congrArg List.length hr
    simp only [List.length_reverse, List.length_append, List.length_cons] at h3
    exact h3
  have htw : (rest.takeWhile (fun c => !IsPathSeparator c)).length ≤ rest.length :=
    (List.takeWhile_sublist _).length_le
  rw [hd, hlen]
  show ((rest.takeWhile (fun c => !IsPathSeparator c)).reverse).length < _
  rw [List.length_reverse]
  omega

/-! ## Features, store commands and the environment -/

/-- A stream of bytes: the content of a file or of a reader. -/
abbrev Bytes := List Nat

/-- A `geojson.Feature`: `Properties` as the entries of the map in the order the
`range` of line 149 visits them; `Geometry` stands for everything else in the
feature (id, bounding box, geometry), which the loader never inspects. -/
structure Feature where
  Geometry : Nat
  Properties : List (String × Value)
  deriving DecidableEq, Repr

/-- The bytes `feature.MarshalJSON()` returns, identified by the feature they encode. -/
structure Payload where
  encoded : Feature
  deriving DecidableEq, Repr

/-- A command handed to `rclient.Do`: `SET dataset i OBJECT data` and
`FSET dataset i k v k v ...`. -/
inductive Command where
  | SET (dataset : String) (i : Nat) (data : Payload)
  | FSET (dataset : String) (i : Nat) (fieldargs : List (String × Value))
  deriving DecidableEq, Repr

/-- What `toml.DecodeFile` returned for the field map file. -/
inductive TomlResult where
  | decoded (fieldmap : GeoFieldMappings)
  | notExist
  | failed
  deriving DecidableEq, Repr

/-- The error value `LoadTile38` returns. -/
inductive LoadError where
  | decodeFieldmap
  | couldNotConnect
  | dial
  | expandUser
  | glob
  | mustSpecify
  deriving DecidableEq, Repr

/-- What `t38AutoloadDataFile` depends on outside itself. `Do history cmd` is
whether `rclient.Do` returned a nil error for `cmd`, given every command issued
on the connection before it; `none` stands for a returned error elsewhere. -/
structure Env where
  lib : Lib
  Open : String → Option Bytes
  NewReader : Bytes → Option Bytes
  Decode : Bytes → Option (List Feature)
  MarshalJSON : Feature → Option Payload
  Do : List Command → Command → Bool

/-- What `LoadTile38` depends on outside itself: the environment of the files it
loads, the field map file, the reachability of the store and the directory. -/
structure Host extends Env where
  ExpandUser : String → Option String
  Join : String → String → String
  DecodeFile : String → TomlResult
  WaitForOpen : String → Bool
  Dial : String → Bool
  Glob : String → Option (List String)

/-! ## The per-feature emission (lines 132-216) -/

/-- Lines 197-215 for one transformed feature: the commands issued for it, after
`history`. `FSET` is issued when `SET` returned no error; its own result only
feeds the count that is logged. -/
def emitFeature (env : Env) (dataset : String) (i : Nat) (feature : Feature)
    (fieldargs : List (String × Value)) (history : List Command) : List Command :=
  match env.MarshalJSON feature with
  | some data =>
    if env.Do history (Command.SET dataset i data) then
      [Command.SET dataset i data, Command.FSET dataset i fieldargs]
    else
      [Command.SET dataset i data]
  | none => []

/-- The feature as it is marshalled: its properties replaced by the cleaned ones. -/
def transformFeature (lib : Lib) (mapping : GeoFieldMapping) (feature : Feature) : Feature :=
  { feature with Properties := cleanedAttributes lib mapping feature.Properties }

/-- The loop `for i, feature := range collection.Features` from index `i` on:
the connection's history after it. The mapping is looked up in every iteration
and a missing one returns from the function. -/
def loadFeatures (env : Env) (fieldmap : GeoFieldMappings) (dataset : String) :
    List Feature → Nat → List Command → List Command
  | [], _, history => history
  | feature :: rest, i, history =>
    match fieldmap.get dataset with
    | none => history
    | some mapping =>
      loadFeatures env fieldmap dataset rest (i + 1)
        (history ++ emitFeature env dataset i (transformFeature env.lib mapping feature)
          (indexableFields env.lib mapping feature.Properties) history)

/-- The `.geojson` case, lines 127-221, on the bytes of `data`. -/
def loadCollection (env : Env) (fieldmap : GeoFieldMappings) (dataset : String)
    (data : Bytes) (history : List Command) : List Command :=
  match env.Decode data with
  | some features => loadFeatures env fieldmap dataset features 0 history
  | none => history

/-! ## `t38AutoloadDataFile` and `LoadTile38` -/

set_option linter.unusedVariables false in
/-- The function `t38AutoloadDataFile`: the connection's history after the call.
`data = none` is the nil reader, which makes the function open `filename`. -/
def t38AutoloadDataFile (env : Env) (fieldmap : GeoFieldMappings) (history : List Command)
    (filename : String) (data : Option Bytes) : List Command :=
  let opened : Option Bytes :=
    match data with
    | some d => some d
    | none => env.Open filename
  match opened with
  | none => history
  | some d =>
    if hgz : Ext filename = ".gz" then
      match env.Open filename with
      | some file =>
        match env.NewReader file with
        | some gzipreader =>
          t38AutoloadDataFile env fieldmap history (datasetName filename) (some gzipreader)
        | none => history
      | none => history
    else if Ext filename = ".geojson" then
      loadCollection env fieldmap (datasetName filename) d history
    else history
termination_by filename.length
decreasing_by
  apply datasetName_length_lt
  rw [hgz]
  decide

/-- The variable `FieldMapFilename`. -/
def FieldMapFilename : String := "fieldmap.toml"

/-- The value of `fieldmap` after lines 44-60, or the error returned at line 58. -/
def loadFieldmap (host : Host) (dir : String) : Except LoadError GeoFieldMappings :=
  match host.ExpandUser dir with
  | some d =>
    match host.DecodeFile (host.Join d FieldMapFilename) with
    | .decoded fieldmap => .ok fieldmap
    | .notExist => .ok { Types := [] }
    | .failed => .error LoadError.decodeFieldmap
  | none => .ok { Types := [] }

/-- The loop of lines 74-77: the files are loaded one after the other. -/
def loadFiles (env : Env) (fieldmap : GeoFieldMappings) (files : List String)
    (history : List Command) : List Command :=
  files.foldl (fun h filename => t38AutoloadDataFile env fieldmap h filename none) history

/-- The function `LoadTile38`: the error it returns (`none` is nil) and the
commands it issued on the connection. -/
def LoadTile38 (host : Host) (address dir : String) : Option LoadError × List Command :=
  if dir ≠ "" ∧ address ≠ "" then
    match loadFieldmap host dir with
    | .error e => (some e, [])
    | .ok fieldmap =>
      if host.WaitForOpen address then
        if host.Dial address then
          match host.ExpandUser dir with
          | some d =>
            match host.Glob (host.Join d "*.*") with
            | some files => (none, loadFiles host.toEnv fieldmap files [])
            | none => (some LoadError.glob, [])
          | none => (some LoadError.expandUser, [])
        else (some LoadError.dial, [])
      else (some LoadError.couldNotConnect, [])
  else (some LoadError.mustSpecify, [])

/-- The host with `files` as the result of the directory listing. -/
def Host.withFiles (host : Host) (files : List String) : Host :=
  { host with Glob := fun _ => some files }

/-! ## A reference instance of the libraries

The theorems below hold for every `Lib` and `Env`. The instance here is what
they are evaluated on at concrete inputs. -/

/-- Words joined by `sep`: a separator before every upper-case letter, which is
lowered, and in place of every blank, hyphen or underscore. -/
def joinWords (sep : Char) : List Char → List Char
  | [] => []
  | c :: rest =>
    if c.isUpper then sep :: c.toLower :: joinWords sep rest
    else if c == ' ' || c == '-' || c == '_' then sep :: joinWords sep rest
    else c :: joinWords sep rest

/-- Modelled from the spec: `stringutil.Underscore` and `stringutil.Hyphenate` of
go-stockutil (not under src/), the `underscore` and `hyphenate` casing
transforms: the words of the key in lower case, joined by `sep`. -/
def snakeCase (sep : Char) (k : String) : String :=
  String.mk ((joinWords sep k.data).dropWhile (fun c => c == sep))

/-- Upper-case the first letter of every word and drop the separators. -/
def capitalizeWords : Bool → List Char → List Char
  | _, [] => []
  | up, c :: rest =>
    if c == ' ' || c == '-' || c == '_' then capitalizeWords true rest
    else (if up then c.toUpper else c) :: capitalizeWords false rest

/-- Modelled from the spec: `stringutil.Camelize` of go-stockutil (not under
src/), the `camelize` casing transform. -/
def camelCase (k : String) : String := String.mk (capitalizeWords true k.data)

/-- Whether the characters are one or more decimal digits. -/
def allDigits (cs : List Char) : Bool := !cs.isEmpty && cs.all Char.isDigit

/-- The number a string of decimal digits writes. -/
def digitsValue (cs : List Char) : Nat := cs.foldl (fun n c => 10 * n + (c.toNat - 48)) 0

/-- Whether the characters write a decimal number: digits, with at most one
point among them, after an optional minus sign. -/
def isDecimal (cs : List Char) : Bool :=
  let body := match cs with
    | '-' :: rest => rest
    | _ => cs
  let whole := body.takeWhile Char.isDigit
  let tail := body.dropWhile Char.isDigit
  match tail with
  | [] => !whole.isEmpty
  | '.' :: frac => (!whole.isEmpty || !frac.isEmpty) && frac.all Char.isDigit
  | _ => false

/-- Modelled from the spec: `typeutil.IsNumeric` of go-stockutil (not under src/),
the numericity test of step 4. The spec does not fix the syntax: the reference
takes the decimal numbers and, as Go's `strconv.ParseFloat` does, the text NaN. -/
def isNumericText (s : String) : Bool := isDecimal s.data || s == "NaN"

/-- Modelled from the spec: `stringutil.Autotype` of go-stockutil (not under
src/): a text becomes the most specific scalar it writes (integer, float,
boolean), any other text stays the string it is, and a value that is not a
string is kept. -/
def autotype : Value → Value
  | .str s =>
    match s.data with
    | '-' :: rest =>
      if allDigits rest then Value.int (-(digitsValue rest : Int))
      else if isNumericText s then Value.float s
      else Value.str s
    | cs =>
      if allDigits cs then Value.int (digitsValue cs : Int)
      else if isNumericText s then Value.float s
      else if s = "true" then Value.bool true
      else if s = "false" then Value.bool false
      else Value.str s
  | v => v

/-- Modelled from the spec: `typeutil.IsEmpty` of go-stockutil (not under src/),
the emptiness test of the compaction pass: null, or a string of blanks only. -/
def isEmptyValue : Value → Bool
  | .null => true
  | .str s => s.data.all Char.isWhitespace
  | _ => false

/-- Modelled from the spec: `strings.ToUpper`, the `upper` casing transform,
letter by letter. -/
def upperCase (k : String) : String := String.mk (k.data.map Char.toUpper)

/-- Modelled from the spec: `strings.ToLower`, the `lower` casing transform,
letter by letter. -/
def lowerCase (k : String) : String := String.mk (k.data.map Char.toLower)

/-- The reference library. -/
def stockutil : Lib where
  Hyphenate := snakeCase '-'
  Camelize := camelCase
  Underscore := snakeCase '_'
  ToUpper := upperCase
  ToLower := lowerCase
  IsNumeric := isNumericText
  Autotype := autotype
  IsEmpty := isEmptyValue

/-- The method `Feature.MarshalJSON` of the reference host: `encoding/json`
returns an error for a float that is not a number, so the call fails for a
feature that has one among its properties, and gives the encoding of the
feature otherwise. -/
def marshalJSON (feature : Feature) : Option Payload :=
  if feature.Properties.any (fun e => e.2 == Value.float "NaN") then none
  else some { encoded := feature }

/-- The reference host: a directory holding `files` (path, content and, when
the content decodes, its features), the registry `fieldmap` in its field map
file, and a reachable store that accepts a command unless `rejects` names it. -/
def directoryHost (fieldmap : GeoFieldMappings)
    (files : List (String × Bytes × Option (List Feature)))
    (rejects : Command → Bool) : Host where
  lib := stockutil
  Open := fun path => (files.find? (fun f => f.1 == path)).map (fun f => f.2.1)
  NewReader := fun bytes => some bytes
  Decode := fun bytes => (files.find? (fun f => f.2.1 == bytes)).bind (fun f => f.2.2)
  MarshalJSON := marshalJSON
  Do := fun _ cmd => !rejects cmd
  ExpandUser := fun d => some d
  Join := fun d name => d ++ "/" ++ name
  DecodeFile := fun _ => TomlResult.decoded fieldmap
  WaitForOpen := fun _ => true
  Dial := fun _ => true
  Glob := fun _ => some (files.map Prod.fst)

/-! ## Definitions used in the statements

The specification's wording of the rename, the attribute loop entry by entry,
and the concrete mappings, features and directories the theorems are
evaluated on. -/

/-- The rename as the specification words it: the first rule whose source is the
key decides, and the rules after it are not tried. -/
def renameFirstMatch : List (List String) → String → String
  | [], k => k
  | [src, dst] :: rest, k =>
    if k = src then (if dst ≠ "" then dst else k) else renameFirstMatch rest k
  | _ :: rest, k => renameFirstMatch rest k

/-- The value an attribute is stored with, lines 177-191. -/
def storedValue (lib : Lib) (v : Value) : Value :=
  if lib.IsNumeric (TrimLeft (Sprintf v)) then numericValue lib (TrimLeft (Sprintf v))
  else lib.Autotype v

/-- The entry an attribute writes to `properties`, when it passes line 173. -/
def storedEntry (lib : Lib) (mapping : GeoFieldMapping) (kv : String × Value) :
    Option (String × Value) :=
  if allowed mapping (finalKey lib mapping kv.1) then
    some (finalKey lib mapping kv.1, storedValue lib kv.2)
  else none

/-- The pair an attribute appends to `fieldargs`, when it passes line 173 and
takes the branch of line 177. -/
def indexedEntry (lib : Lib) (mapping : GeoFieldMapping) (kv : String × Value) :
    Option (String × Value) :=
  if allowed mapping (finalKey lib mapping kv.1) && lib.IsNumeric (TrimLeft (Sprintf kv.2)) then
    some (finalKey lib mapping kv.1, numericValue lib (TrimLeft (Sprintf kv.2)))
  else none

/-- The map after a run of writes, in order. -/
def writeAll (m : List (String × Value)) (entries : List (String × Value)) :
    List (String × Value) :=
  entries.foldl (fun acc e => mapSet acc e.1 e.2) m

/-- The mapping with every field at its zero value. -/
def emptyMapping : GeoFieldMapping :=
  { DisplayKeys := [], OnlyFields := [], NormalizeKeys := "", Rename := [] }

/-- The mapping that only lowers the keys. -/
def lowerMapping : GeoFieldMapping := { emptyMapping with NormalizeKeys := "lower" }

/-- The sequence index of a `SET` command. -/
def Command.setIndex : Command → Option Nat
  | .SET _ i _ => some i
  | .FSET _ _ _ => none

/-- The dataset a command is keyed by. -/
def Command.dataset : Command → String
  | .SET dataset _ _ => dataset
  | .FSET dataset _ _ => dataset

/-- The index of a feature when its transformed form marshals. -/
def marshalledIndex (env : Env) (mapping : GeoFieldMapping) (p : Nat × Feature) : Option Nat :=
  if (env.MarshalJSON (transformFeature env.lib mapping p.2)).isSome then some p.1 else none

/-- The mapping of the end-to-end example: underscore keys, Name to park_name. -/
def parksMapping : GeoFieldMapping :=
  { emptyMapping with NormalizeKeys := "underscore", Rename := [["Name", "park_name"]] }

/-- The registry of the end-to-end example: `parksMapping` for the dataset parks. -/
def parksFieldmap : GeoFieldMappings := { Types := [("parks", parksMapping)] }

/-- Whether a discovered file has no registry entry for its dataset name or has
content that does not decode as a feature collection: a `.geojson` file, or a
`.gz` file whose name without `.gz` is a `.geojson` name. -/
def unmappedOrCorrupt (env : Env) (fieldmap : GeoFieldMappings) (filename : String) : Bool :=
  if Ext filename = ".geojson" then
    (fieldmap.get (datasetName filename)).isNone ||
      (match env.Open filename with
        | some d => (env.Decode d).isNone
        | none => false)
  else if Ext filename = ".gz" ∧ Ext (datasetName filename) = ".geojson" then
    (fieldmap.get (datasetName (datasetName filename))).isNone ||
      (match env.Open filename with
        | some file =>
          match env.NewReader file with
          | some gzipreader => (env.Decode gzipreader).isNone
          | none => false
        | none => false)
  else false

/-- The registry of the isolation example: a mapping for parks and none for lakes. -/
def lakesAndParks : List (String × Bytes × Option (List Feature)) :=
  [("/data/lakes.geojson", [2],
      some [{ Geometry := 7, Properties := [("Name", Value.str "Placid")] }]),
    ("/data/broken.geojson", [3], none),
    ("/data/parks.geojson", [1],
      some [{ Geometry := 0, Properties := [("Name", Value.str "Central")] }])]

/-- The feature of the end-to-end example: one property, Name Central. -/
def centralPark : Feature := { Geometry := 0, Properties := [("Name", Value.str "Central")] }

/-- The directory of the end-to-end example, holding the one file `filename`. -/
def parksHost (fieldmap : GeoFieldMappings) (filename : String) : Host :=
  directoryHost fieldmap [(filename, [1], some [centralPark])] (fun _ => false)

/-! # Theorems -/

/-! ## C2: the rename loop -/

theorem renameKey_nil (k : String) : renameKey [] k = k := rfl

theorem renameKey_cons (pair : List String) (rules : List (List String)) (k : String) :
    renameKey (pair :: rules) k = renameKey rules (renameStep k pair) := rfl

theorem renameKey_append (pre post : List (List String)) (k : String) :
    renameKey (pre ++ post) k = renameKey post (renameKey pre k) := by
  simp [renameKey, List.foldl_append]

/-- A rule that is not a pair with source `k` and a target leaves `k` alone. -/
theorem renameStep_idle (k : String) (pair : List String)
    (h : ∀ src dst, pair = [src, dst] → src = k → dst = "") : renameStep k pair = k := by
  unfold renameStep
  split
  · rename_i src dst
    by_cases hk : k = src
    · have hd := h src dst rfl hk.symm
      simp [hd]
    · simp [hk]
  · rfl

theorem renameKey_idle (rules : List (List String)) (k : String)
    (h : ∀ src dst, [src, dst] ∈ rules → src = k → dst = "") : renameKey rules k = k := by
  induction rules with
  | nil => rfl
  | cons pair rules ih =>
    rw [renameKey_cons, renameStep_idle k pair]
    · exact ih (fun s d hm => h s d (List.mem_cons_of_mem _ hm))
    · intro s d hp
      exact h s d (hp ▸ List.mem_cons_self _ _)

theorem renameStep_fire (k dst : String) (h : dst ≠ "") : renameStep k [k, dst] = dst := by
  simp [renameStep, h]

/-- C2 (as amended): the rename loop tries every rule, in list order, against the
key as renamed so far. With no rule that has the key as source and a non-empty
target the key is unchanged; otherwise the first such rule renames it to its
target and the rules after it are tried against that target, the key ending as
that target when none of them has it as source with a non-empty target. The
rules a to b, a to c map a to b. -/
theorem rename_sequential (k : String) :
    (∀ rules : List (List String),
      (∀ src dst, [src, dst] ∈ rules → src = k → dst = "") → renameKey rules k = k) ∧
    (∀ (pre post : List (List String)) (dst : String), dst ≠ "" →
      (∀ s d, [s, d] ∈ pre → s = k → d = "") →
      renameKey (pre ++ [k, dst] :: post) k = renameKey post dst) ∧
    (∀ (pre post : List (List String)) (dst : String), dst ≠ "" →
      (∀ s d, [s, d] ∈ pre → s = k → d = "") →
      (∀ s d, [s, d] ∈ post → s = dst → d = "") →
      renameKey (pre ++ [k, dst] :: post) k = dst) ∧
    renameKey [["a", "b"], ["a", "c"]] "a" = "b" := by
  have hfire : ∀ (pre post : List (List String)) (dst : String), dst ≠ "" →
      (∀ s d, [s, d] ∈ pre → s = k → d = "") →
      renameKey (pre ++ [k, dst] :: post) k = renameKey post dst := by
    intro pre post dst hdst hpre
    rw [renameKey_append, renameKey_idle pre k hpre, renameKey_cons, renameStep_fire k dst hdst]
  refine ⟨fun rules h => renameKey_idle rules k h, hfire, ?_, by decide⟩
  intro pre post dst hdst hpre hpost
  rw [hfire pre post dst hdst hpre, renameKey_idle post dst hpost]

/-- C2, at a concrete input: after an idle rule, a to b and then a to c map a to b. -/
theorem rename_sequential_witness :
    renameKey ([["x", "y"]] ++ ["a", "b"] :: [["a", "c"]]) "a" = "b" :=
  (rename_sequential "a").2.2.1 [["x", "y"]] [["a", "c"]] "b" (by decide)
    (by
      intro s d hm hs
      simp only [List.mem_singleton, List.cons.injEq, and_true] at hm
      exact absurd (hm.1 ▸ hs) (by decide))
    (by
      intro s d hm hs
      simp only [List.mem_singleton, List.cons.injEq, and_true] at hm
      exact absurd (hm.1 ▸ hs) (by decide))

/-- C2 as stated fails: the first rule with source a has an empty target, so the
claim leaves a unchanged, and the loop goes on to rename it to c; and after a
to b, the later rule b to c does have an effect. -/
theorem rename_first_match_refuted :
    renameKey [["a", ""], ["a", "c"]] "a" = "c" ∧
    renameFirstMatch [["a", ""], ["a", "c"]] "a" = "a" ∧
    renameKey [["a", "b"], ["b", "c"]] "a" = "c" ∧
    renameFirstMatch [["a", "b"], ["b", "c"]] "a" = "b" := by
  decide

/-! ## The attribute loop, entry by entry -/

theorem foldl_processAttribute (lib : Lib) (mapping : GeoFieldMapping)
    (raw : List (String × Value)) (st : LoopState) :
    raw.foldl (processAttribute lib mapping) st =
      { properties := writeAll st.properties (raw.filterMap (storedEntry lib mapping)),
        fieldargs := st.fieldargs ++ raw.filterMap (indexedEntry lib mapping) } := by
  induction raw generalizing st with
  | nil => simp [writeAll]
  | cons kv raw ih =>
    rw [List.foldl_cons, ih]
    by_cases ha : allowed mapping (finalKey lib mapping kv.1) = true
    · by_cases hn : lib.IsNumeric (TrimLeft (Sprintf kv.2)) = true
      · simp [processAttribute, storedEntry, indexedEntry, storedValue, writeAll, ha, hn]
      · simp [processAttribute, storedEntry, indexedEntry, storedValue, writeAll, ha, hn]
    · simp [processAttribute, storedEntry, indexedEntry, storedValue, writeAll, ha]

theorem attributeLoop_properties (lib : Lib) (mapping : GeoFieldMapping)
    (raw : List (String × Value)) :
    (attributeLoop lib mapping raw).properties =
      writeAll [] (raw.filterMap (storedEntry lib mapping)) := by
  simp [attributeLoop, foldl_processAttribute]

theorem indexableFields_eq (lib : Lib) (mapping : GeoFieldMapping)
    (raw : List (String × Value)) :
    indexableFields lib mapping raw = raw.filterMap (indexedEntry lib mapping) := by
  simp [indexableFields, attributeLoop, foldl_processAttribute]

/-! ### The written map -/

theorem mem_mapSet (m : List (String × Value)) (k : String) (v : Value) (e : String × Value) :
    e ∈ mapSet m k v ↔ (e ∈ m ∧ e.1 ≠ k) ∨ e = (k, v) := by
  simp [mapSet]

theorem mapSet_keys_nodup (m : List (String × Value)) (k : String) (v : Value)
    (h : (m.map Prod.fst).Nodup) : ((mapSet m k v).map Prod.fst).Nodup := by
  simp only [mapSet, List.map_append, List.map_cons, List.map_nil]
  rw [List.nodup_append]
  refine ⟨?_, by simp, ?_⟩
  · exact (List.filter_sublist _).map Prod.fst |>.nodup h
  · intro a ha hb
    simp only [List.mem_singleton] at hb
    simp only [List.mem_map, List.mem_filter] at ha
    obtain ⟨e, ⟨_, he⟩, rfl⟩ := ha
    simp [hb] at he

theorem writeAll_keys_nodup (entries m : List (String × Value))
    (h : (m.map Prod.fst).Nodup) : ((writeAll m entries).map Prod.fst).Nodup := by
  induction entries generalizing m with
  | nil => simpa [writeAll] using h
  | cons e entries ih =>
    simp only [writeAll, List.foldl_cons]
    exact ih _ (mapSet_keys_nodup m e.1 e.2 h)

/-- Every entry of the written map is one of the writes or was there before. -/
theorem mem_writeAll (entries m : List (String × Value)) (e : String × Value)
    (h : e ∈ writeAll m entries) : e ∈ m ∨ e ∈ entries := by
  induction entries generalizing m with
  | nil => exact Or.inl (by simpa [writeAll] using h)
  | cons w entries ih =>
    simp only [writeAll, List.foldl_cons] at h
    rcases ih _ h with h1 | h1
    · rcases (mem_mapSet m w.1 w.2 e).mp h1 with h2 | h2
      · exact Or.inl h2.1
      · exact Or.inr (by simp [h2])
    · exact Or.inr (List.mem_cons_of_mem _ h1)

/-- With no key written twice or already present, the writes are appended as they come. -/
theorem writeAll_of_nodup (entries m : List (String × Value))
    (h : ((m ++ entries).map Prod.fst).Nodup) : writeAll m entries = m ++ entries := by
  induction entries generalizing m with
  | nil => simp [writeAll]
  | cons w entries ih =>
    simp only [writeAll, List.foldl_cons]
    have hfil : m.filter (fun e => e.1 != w.1) = m := by
      rw [List.filter_eq_self]
      intro e he
      simp only [bne_iff_ne, ne_eq]
      intro hk
      simp only [List.map_append, List.map_cons] at h
      rw [List.nodup_append] at h
      exact h.2.2 (List.mem_map_of_mem Prod.fst he) (by simp [hk])
    have hset : mapSet m w.1 w.2 = m ++ [w] := by simp [mapSet, hfil]
    rw [hset]
    have := ih (m ++ [w]) (by simpa using h)
    simpa [writeAll] using this

theorem mapGet_eq_some_iff (m : List (String × Value)) (h : (m.map Prod.fst).Nodup)
    (k : String) (v : Value) : mapGet m k = some v ↔ (k, v) ∈ m := by
  induction m with
  | nil => simp [mapGet]
  | cons e m ih =>
    simp only [List.map_cons, List.nodup_cons] at h
    by_cases hk : e.1 = k
    · have hfind : mapGet (e :: m) k = some e.2 := by simp [mapGet, List.find?, hk]
      rw [hfind]
      constructor
      · intro hv
        simp only [Option.some.injEq] at hv
        exact List.mem_cons.mpr (Or.inl (by rw [← hk, ← hv]))
      · intro hm
        rcases List.mem_cons.mp hm with h1 | h1
        · rw [← h1]
        · exact absurd (List.mem_map_of_mem Prod.fst h1) (by simpa [hk] using h.1)
    · have hfind : mapGet (e :: m) k = mapGet m k := by
        have hb : (e.1 == k) = false := by simpa using hk
        simp [mapGet, List.find?, hb]
      rw [hfind, ih h.2]
      constructor
      · exact fun hm => List.mem_cons_of_mem _ hm
      · intro hm
        rcases List.mem_cons.mp hm with h1 | h1
        · exact absurd (by rw [← h1]) hk
        · exact h1

/-! ## C3: the allow-list -/

theorem mem_filterMap_storedEntry (lib : Lib) (mapping : GeoFieldMapping)
    (raw : List (String × Value)) (e : String × Value)
    (h : e ∈ raw.filterMap (storedEntry lib mapping)) :
    ∃ kv ∈ raw, allowed mapping (finalKey lib mapping kv.1) = true ∧
      e = (finalKey lib mapping kv.1, storedValue lib kv.2) := by
  obtain ⟨kv, hkv, he⟩ := List.mem_filterMap.mp h
  refine ⟨kv, hkv, ?_⟩
  unfold storedEntry at he
  split at he
  · rename_i ha
    exact ⟨ha, by simpa using he.symm⟩
  · simp at he

theorem mem_filterMap_indexedEntry (lib : Lib) (mapping : GeoFieldMapping)
    (raw : List (String × Value)) (e : String × Value)
    (h : e ∈ raw.filterMap (indexedEntry lib mapping)) :
    ∃ kv ∈ raw, allowed mapping (finalKey lib mapping kv.1) = true ∧
      lib.IsNumeric (TrimLeft (Sprintf kv.2)) = true ∧
      e = (finalKey lib mapping kv.1, numericValue lib (TrimLeft (Sprintf kv.2))) := by
  obtain ⟨kv, hkv, he⟩ := List.mem_filterMap.mp h
  refine ⟨kv, hkv, ?_⟩
  unfold indexedEntry at he
  split at he
  · rename_i ha
    simp only [Bool.and_eq_true] at ha
    exact ⟨ha.1, ha.2, by simpa using he.symm⟩
  · simp at he

/-- Every entry of the cleaned attributes was written by an attribute that
passed line 173, under its final key, and is not empty. -/
theorem mem_cleanedAttributes (lib : Lib) (mapping : GeoFieldMapping)
    (raw : List (String × Value)) (e : String × Value)
    (h : e ∈ cleanedAttributes lib mapping raw) :
    lib.IsEmpty e.2 = false ∧
    ∃ kv ∈ raw, allowed mapping (finalKey lib mapping kv.1) = true ∧
      e = (finalKey lib mapping kv.1, storedValue lib kv.2) := by
  simp only [cleanedAttributes, Compact, List.mem_filter, attributeLoop_properties] at h
  refine ⟨by simpa using h.2, ?_⟩
  rcases mem_writeAll _ _ e h.1 with h1 | h1
  · simp at h1
  · exact mem_filterMap_storedEntry lib mapping raw e h1

theorem allowed_mem (mapping : GeoFieldMapping) (k : String) (hne : mapping.OnlyFields ≠ [])
    (h : allowed mapping k = true) : k ∈ mapping.OnlyFields := by
  have hlen : mapping.OnlyFields.length > 0 := List.length_pos.mpr hne
  simpa [allowed, ContainsString, hlen] using h

/-- C3: with a non-empty `OnlyFields`, every key of the cleaned attributes and
every key handed to FSET is the final (normalized, renamed) key of a raw
attribute and is in `OnlyFields`; an attribute whose final key is not in
`OnlyFields` is in neither output. With `OnlyFields` name alone, the attributes
name X, extra Y give exactly name X and no indexed field, in either visiting
order, for every library that keeps the key name, does not turn extra into
name, and takes X for a non-numeric, non-empty string. -/
theorem allow_list_filtering (lib : Lib) (mapping : GeoFieldMapping)
    (raw : List (String × Value)) (hne : mapping.OnlyFields ≠ []) :
    (∀ e ∈ cleanedAttributes lib mapping raw,
      e.1 ∈ mapping.OnlyFields ∧ ∃ kv ∈ raw, e.1 = finalKey lib mapping kv.1) ∧
    (∀ e ∈ indexableFields lib mapping raw,
      e.1 ∈ mapping.OnlyFields ∧ ∃ kv ∈ raw, e.1 = finalKey lib mapping kv.1) ∧
    (∀ k, k ∉ mapping.OnlyFields →
      (∀ v, (k, v) ∉ cleanedAttributes lib mapping raw) ∧
      (∀ v, (k, v) ∉ indexableFields lib mapping raw)) ∧
    (lib.Underscore "name" = "name" → lib.Underscore "extra" ≠ "name" →
      lib.IsNumeric "X" = false → lib.Autotype (Value.str "X") = Value.str "X" →
      lib.IsEmpty (Value.str "X") = false →
      ∀ only : GeoFieldMapping, only = { emptyMapping with OnlyFields := ["name"] } →
      cleanedAttributes lib only [("name", Value.str "X"), ("extra", Value.str "Y")]
        = [("name", Value.str "X")] ∧
      indexableFields lib only [("name", Value.str "X"), ("extra", Value.str "Y")] = [] ∧
      cleanedAttributes lib only [("extra", Value.str "Y"), ("name", Value.str "X")]
        = [("name", Value.str "X")] ∧
      indexableFields lib only [("extra", Value.str "Y"), ("name", Value.str "X")] = []) := by
  have hclean : ∀ e ∈ cleanedAttributes lib mapping raw,
      e.1 ∈ mapping.OnlyFields ∧ ∃ kv ∈ raw, e.1 = finalKey lib mapping kv.1 := by
    intro e he
    obtain ⟨_, kv, hkv, ha, rfl⟩ := mem_cleanedAttributes lib mapping raw e he
    exact ⟨allowed_mem mapping _ hne ha, kv, hkv, rfl⟩
  have hindex : ∀ e ∈ indexableFields lib mapping raw,
      e.1 ∈ mapping.OnlyFields ∧ ∃ kv ∈ raw, e.1 = finalKey lib mapping kv.1 := by
    intro e he
    rw [indexableFields_eq] at he
    obtain ⟨kv, hkv, ha, _, rfl⟩ := mem_filterMap_indexedEntry lib mapping raw e he
    exact ⟨allowed_mem mapping _ hne ha, kv, hkv, rfl⟩
  refine ⟨hclean, hindex, ?_, ?_⟩
  · intro k hk
    exact ⟨fun v hv => hk (hclean (k, v) hv).1, fun v hv => hk (hindex (k, v) hv).1⟩
  · intro hname hextra hnum hauto hempty only honly
    have hx : TrimLeft "X" = "X" := by decide
    have hkn : finalKey lib only "name" = "name" := by
      simp [honly, finalKey, normalizeKey, renameKey, emptyMapping, hname]
    have hke : finalKey lib only "extra" = lib.Underscore "extra" := by
      simp [honly, finalKey, normalizeKey, renameKey, emptyMapping]
    have han : allowed only "name" = true := by
      simp [honly, allowed, ContainsString, emptyMapping]
    have hae : allowed only (lib.Underscore "extra") = false := by
      simp [honly, allowed, ContainsString, emptyMapping, hextra]
    simp [cleanedAttributes, indexableFields, attributeLoop, processAttribute, Compact,
      mapSet, Sprintf, hx, hkn, hke, han, hae, hnum, hauto, hempty]

/-- C3, on the reference library: `OnlyFields` name alone keeps name X and drops extra Y. -/
theorem allow_list_filtering_witness :
    cleanedAttributes stockutil { emptyMapping with OnlyFields := ["name"] }
        [("name", Value.str "X"), ("extra", Value.str "Y")] = [("name", Value.str "X")] ∧
    indexableFields stockutil { emptyMapping with OnlyFields := ["name"] }
        [("name", Value.str "X"), ("extra", Value.str "Y")] = [] ∧
    cleanedAttributes stockutil { emptyMapping with OnlyFields := ["name"] }
        [("extra", Value.str "Y"), ("name", Value.str "X")] = [("name", Value.str "X")] ∧
    indexableFields stockutil { emptyMapping with OnlyFields := ["name"] }
        [("extra", Value.str "Y"), ("name", Value.str "X")] = [] :=
  (allow_list_filtering stockutil { emptyMapping with OnlyFields := ["name"] }
    [("name", Value.str "X"), ("extra", Value.str "Y")] (by decide)).2.2.2 (by decide) (by decide) (by decide) (by decide) (by decide) _ rfl

/-! ## C4: compaction -/

theorem properties_keys_nodup (lib : Lib) (mapping : GeoFieldMapping)
    (raw : List (String × Value)) :
    ((attributeLoop lib mapping raw).properties.map Prod.fst).Nodup := by
  rw [attributeLoop_properties]
  exact writeAll_keys_nodup _ [] (by simp)

theorem cleaned_keys_nodup (lib : Lib) (mapping : GeoFieldMapping)
    (raw : List (String × Value)) :
    ((cleanedAttributes lib mapping raw).map Prod.fst).Nodup :=
  ((List.filter_sublist _).map Prod.fst).nodup (properties_keys_nodup lib mapping raw)

/-- C4: no entry of the cleaned attributes (the properties that are marshalled
into the SET payload) has an empty value, and a key whose value in `properties`
after the attribute loop (normalized, renamed, autotyped) is empty is not a key
of the cleaned attributes. -/
theorem null_compaction (lib : Lib) (mapping : GeoFieldMapping)
    (raw : List (String × Value)) :
    (∀ e ∈ cleanedAttributes lib mapping raw, lib.IsEmpty e.2 = false) ∧
    (∀ e ∈ (transformFeature lib mapping { Geometry := 0, Properties := raw }).Properties,
      lib.IsEmpty e.2 = false) ∧
    (∀ k v, mapGet (attributeLoop lib mapping raw).properties k = some v →
      lib.IsEmpty v = true →
      mapGet (cleanedAttributes lib mapping raw) k = none ∧
      ∀ w, (k, w) ∉ cleanedAttributes lib mapping raw) ∧
    (∀ k v, mapGet (attributeLoop lib mapping raw).properties k = some v →
      lib.IsEmpty v = false → mapGet (cleanedAttributes lib mapping raw) k = some v) := by
  have h1 : ∀ e ∈ cleanedAttributes lib mapping raw, lib.IsEmpty e.2 = false :=
    fun e he => (mem_cleanedAttributes lib mapping raw e he).1
  have hnd := properties_keys_nodup lib mapping raw
  have hnd2 := cleaned_keys_nodup lib mapping raw
  have habs : ∀ k v, mapGet (attributeLoop lib mapping raw).properties k = some v →
      lib.IsEmpty v = true → ∀ w, (k, w) ∉ cleanedAttributes lib mapping raw := by
    intro k v hget hempty w hw
    have hw1 : (k, w) ∈ (attributeLoop lib mapping raw).properties := by
      simp only [cleanedAttributes, Compact, List.mem_filter] at hw
      exact hw.1
    have hwv : some w = some v := by
      rw [← hget]
      exact ((mapGet_eq_some_iff _ hnd k w).mpr hw1).symm
    have hwe := h1 (k, w) hw
    simp only [Option.some.injEq] at hwv
    rw [hwv] at hwe
    simp [hempty] at hwe
  refine ⟨h1, h1, ?_, ?_⟩
  · intro k v hget hempty
    refine ⟨?_, habs k v hget hempty⟩
    cases hc : mapGet (cleanedAttributes lib mapping raw) k with
    | none => rfl
    | some w =>
      exact absurd ((mapGet_eq_some_iff _ hnd2 k w).mp hc) (habs k v hget hempty w)
  · intro k v hget hne
    rw [mapGet_eq_some_iff _ hnd2]
    have hm := (mapGet_eq_some_iff _ hnd k v).mp hget
    simp only [cleanedAttributes, Compact, List.mem_filter]
    exact ⟨hm, by simp [hne]⟩

/-- C4, on the reference library: a blank name is written by the attribute loop
and is absent from the cleaned attributes, next to a kept one. -/
theorem null_compaction_witness :
    mapGet (cleanedAttributes stockutil emptyMapping
      [("name", Value.str " "), ("kind", Value.str "park")]) "name" = none ∧
    ∀ w, ("name", w) ∉ cleanedAttributes stockutil emptyMapping
      [("name", Value.str " "), ("kind", Value.str "park")] :=
  (null_compaction stockutil emptyMapping
    [("name", Value.str " "), ("kind", Value.str "park")]).2.2.1 "name" (Value.str " ")
    (by decide) (by decide)

/-! ## C5 and C1: the numeric branch -/

/-- C5 (as amended): the pairs handed to FSET are, in visiting order, those of
the attributes that pass the allow-list and whose zero-stripped text is numeric,
the whole branch of line 177: each is keyed by the final key and carries the
zero-stripped text itself, a string, when that text is five bytes long (the ZIP
exception) and the autotyped zero-stripped text otherwise. An attribute that is
filtered out or not numeric contributes no pair. -/
theorem indexable_fields_numeric_branch (lib : Lib) (mapping : GeoFieldMapping)
    (raw : List (String × Value)) :
    indexableFields lib mapping raw = raw.filterMap (indexedEntry lib mapping) ∧
    (∀ kv : String × Value, lib.IsNumeric (TrimLeft (Sprintf kv.2)) = false →
      indexedEntry lib mapping kv = none) ∧
    (∀ kv : String × Value, allowed mapping (finalKey lib mapping kv.1) = false →
      indexedEntry lib mapping kv = none) ∧
    (∀ kv : String × Value, allowed mapping (finalKey lib mapping kv.1) = true →
      lib.IsNumeric (TrimLeft (Sprintf kv.2)) = true →
      indexedEntry lib mapping kv = some (finalKey lib mapping kv.1,
        if len (TrimLeft (Sprintf kv.2)) = 5 then Value.str (TrimLeft (Sprintf kv.2))
        else lib.Autotype (Value.str (TrimLeft (Sprintf kv.2))))) := by
  refine ⟨indexableFields_eq lib mapping raw, ?_, ?_, ?_⟩
  · intro kv h
    simp [indexedEntry, h]
  · intro kv h
    simp [indexedEntry, h]
  · intro kv ha hn
    simp [indexedEntry, ha, hn, numericValue]

/-- C5, on the reference library: of a population, a name and a ZIP code, the
population is indexed as the number it writes and the ZIP code as a string. -/
theorem indexable_fields_numeric_branch_witness :
    indexableFields stockutil emptyMapping
      [("pop", Value.str "0120"), ("name", Value.str "Central"), ("zip", Value.str "12345")]
      = [("pop", Value.int 120), ("zip", Value.str "12345")] := by
  rw [(indexable_fields_numeric_branch stockutil emptyMapping _).1]
  decide

/-- C5 as stated fails: an attribute kept as a string by the ZIP exception does
contribute a pair, and the value handed to FSET is that string, not a number. -/
theorem zip_exception_is_indexed :
    indexableFields stockutil emptyMapping [("zip", Value.str "12345")]
      = [("zip", Value.str "12345")] ∧
    (Value.str "12345").isNumber = false ∧ (Value.str "12345").isString = true := by
  decide

/-- C1, the code at the failing input: the value 07753 is stripped to 7753 before
the length test of line 178, which then fails, so the attribute is stored and
indexed as the autotyped 7753; for every library that takes 7753 for numeric the
stored value is computed from the stripped text alone. -/
theorem zip_leading_zero_lost :
    TrimLeft (Sprintf (Value.str "07753")) = "7753" ∧ len "7753" = 4 ∧
    (∀ lib : Lib, lib.IsNumeric "7753" = true →
      storedValue lib (Value.str "07753") = lib.Autotype (Value.str "7753")) ∧
    cleanedAttributes stockutil emptyMapping [("zip", Value.str "07753")]
      = [("zip", Value.int 7753)] ∧
    indexableFields stockutil emptyMapping [("zip", Value.str "07753")]
      = [("zip", Value.int 7753)] := by
  refine ⟨by decide, by decide, ?_, by decide, by decide⟩
  intro lib h
  have ht : TrimLeft (Sprintf (Value.str "07753")) = "7753" := by decide
  have hl : ¬ len "7753" = 5 := by decide
  simp [storedValue, numericValue, ht, h, hl]

/-! ## C10: visiting order -/

theorem mapGet_eq_of_perm (m m' : List (String × Value)) (hp : m.Perm m')
    (hnd : (m.map Prod.fst).Nodup) (k : String) : mapGet m k = mapGet m' k := by
  have hnd' : (m'.map Prod.fst).Nodup := (hp.map Prod.fst).nodup_iff.mp hnd
  apply Option.ext
  intro v
  simp only [Option.mem_def]
  rw [mapGet_eq_some_iff m hnd, mapGet_eq_some_iff m' hnd']
  exact hp.mem_iff

/-- C10 (as amended): for every two visiting orders of the same raw attributes,
the pairs handed to FSET are the same up to their order; and when no two
attributes that pass the allow-list have the same final key, the cleaned
attributes are the same entries and give the same value for every key. -/
theorem order_independence_distinct_keys (lib : Lib) (mapping : GeoFieldMapping)
    (raw raw' : List (String × Value)) (hperm : raw.Perm raw') :
    (indexableFields lib mapping raw).Perm (indexableFields lib mapping raw') ∧
    (((raw.filterMap (storedEntry lib mapping)).map Prod.fst).Nodup →
      (cleanedAttributes lib mapping raw).Perm (cleanedAttributes lib mapping raw') ∧
      ∀ k, mapGet (cleanedAttributes lib mapping raw) k
        = mapGet (cleanedAttributes lib mapping raw') k) := by
  constructor
  · rw [indexableFields_eq, indexableFields_eq]
    exact hperm.filterMap _
  · intro hnd
    have hp : (raw.filterMap (storedEntry lib mapping)).Perm
        (raw'.filterMap (storedEntry lib mapping)) := hperm.filterMap _
    have hnd' : ((raw'.filterMap (storedEntry lib mapping)).map Prod.fst).Nodup :=
      (hp.map Prod.fst).nodup_iff.mp hnd
    have h1 : (attributeLoop lib mapping raw).properties
        = raw.filterMap (storedEntry lib mapping) := by
      rw [attributeLoop_properties, writeAll_of_nodup _ [] (by simpa using hnd)]
      simp
    have h2 : (attributeLoop lib mapping raw').properties
        = raw'.filterMap (storedEntry lib mapping) := by
      rw [attributeLoop_properties, writeAll_of_nodup _ [] (by simpa using hnd')]
      simp
    have hc : (cleanedAttributes lib mapping raw).Perm (cleanedAttributes lib mapping raw') := by
      simp only [cleanedAttributes, Compact, h1, h2]
      exact hp.filter _
    exact ⟨hc, mapGet_eq_of_perm _ _ hc (cleaned_keys_nodup lib mapping raw)⟩

/-- C10, on the reference library: two attributes with distinct final keys, in
the two visiting orders. -/
theorem order_independence_distinct_keys_witness :
    (indexableFields stockutil emptyMapping
        [("pop", Value.str "120"), ("name", Value.str "X")]).Perm
      (indexableFields stockutil emptyMapping
        [("name", Value.str "X"), ("pop", Value.str "120")]) ∧
    (cleanedAttributes stockutil emptyMapping
        [("pop", Value.str "120"), ("name", Value.str "X")]).Perm
      (cleanedAttributes stockutil emptyMapping
        [("name", Value.str "X"), ("pop", Value.str "120")]) ∧
    ∀ k, mapGet (cleanedAttributes stockutil emptyMapping
        [("pop", Value.str "120"), ("name", Value.str "X")]) k
      = mapGet (cleanedAttributes stockutil emptyMapping
        [("name", Value.str "X"), ("pop", Value.str "120")]) k :=
  have h := order_independence_distinct_keys stockutil emptyMapping
    [("pop", Value.str "120"), ("name", Value.str "X")]
    [("name", Value.str "X"), ("pop", Value.str "120")] (List.Perm.swap _ _ _)
  ⟨h.1, h.2 (by decide)⟩

/-- C10 as stated fails: the raw keys A and a both lower to a, and the value the
payload has for a is that of whichever is visited last; FSET is handed both
pairs, so the two do not agree on the key. -/
theorem order_dependence_on_collision :
    List.Perm [("A", Value.str "1"), ("a", Value.str "2")]
      [("a", Value.str "2"), ("A", Value.str "1")] ∧
    cleanedAttributes stockutil lowerMapping [("A", Value.str "1"), ("a", Value.str "2")]
      = [("a", Value.int 2)] ∧
    cleanedAttributes stockutil lowerMapping [("a", Value.str "2"), ("A", Value.str "1")]
      = [("a", Value.int 1)] ∧
    indexableFields stockutil lowerMapping [("A", Value.str "1"), ("a", Value.str "2")]
      = [("a", Value.int 1), ("a", Value.int 2)] ∧
    indexableFields stockutil lowerMapping [("a", Value.str "2"), ("A", Value.str "1")]
      = [("a", Value.int 2), ("a", Value.int 1)] :=
  ⟨List.Perm.swap _ _ _, by decide, by decide, by decide, by decide⟩

/-! ## C8: the feature loop -/

theorem emitFeature_setIndex (env : Env) (dataset : String) (i : Nat) (feature : Feature)
    (fieldargs : List (String × Value)) (history : List Command) :
    (emitFeature env dataset i feature fieldargs history).filterMap Command.setIndex =
      if (env.MarshalJSON feature).isSome then [i] else [] := by
  unfold emitFeature
  cases hm : env.MarshalJSON feature with
  | none => simp
  | some data =>
    by_cases hd : env.Do history (Command.SET dataset i data) = true
    · simp [hd, Command.setIndex]
    · simp [hd, Command.setIndex]

theorem emitFeature_dataset (env : Env) (dataset : String) (i : Nat) (feature : Feature)
    (fieldargs : List (String × Value)) (history : List Command) :
    ∀ cmd ∈ emitFeature env dataset i feature fieldargs history, cmd.dataset = dataset := by
  intro cmd hc
  unfold emitFeature at hc
  cases hm : env.MarshalJSON feature with
  | none => simp [hm] at hc
  | some data =>
    by_cases hd : env.Do history (Command.SET dataset i data) = true
    · simp [hm, hd] at hc
      rcases hc with rfl | rfl <;> rfl
    · simp [hm, hd] at hc
      rw [hc]
      rfl

theorem loadFeatures_cons (env : Env) (fieldmap : GeoFieldMappings) (dataset : String)
    (mapping : GeoFieldMapping) (hmap : fieldmap.get dataset = some mapping)
    (feature : Feature) (rest : List Feature) (i : Nat) (history : List Command) :
    loadFeatures env fieldmap dataset (feature :: rest) i history =
      loadFeatures env fieldmap dataset rest (i + 1)
        (history ++ emitFeature env dataset i (transformFeature env.lib mapping feature)
          (indexableFields env.lib mapping feature.Properties) history) := by
  simp [loadFeatures, hmap]

/-- The feature loop from index `first` on, block by block. -/
theorem loadFeatures_blocks (env : Env) (fieldmap : GeoFieldMappings) (dataset : String)
    (mapping : GeoFieldMapping) (hmap : fieldmap.get dataset = some mapping)
    (features : List Feature) (first : Nat) (history : List Command) :
    ∃ blocks : List (List Command),
      loadFeatures env fieldmap dataset features first history = history ++ blocks.flatten ∧
      blocks.length = features.length ∧
      (∀ j feature, features[j]? = some feature →
        blocks[j]? = some (emitFeature env dataset (first + j)
          (transformFeature env.lib mapping feature)
          (indexableFields env.lib mapping feature.Properties)
          (history ++ (blocks.take j).flatten))) ∧
      blocks.flatten.filterMap Command.setIndex =
        (features.enumFrom first).filterMap (marshalledIndex env mapping) ∧
      (∀ cmd ∈ blocks.flatten, cmd.dataset = dataset) := by
  induction features generalizing first history with
  | nil => exact ⟨[], by simp [loadFeatures], rfl, by simp, by simp, by simp⟩
  | cons f rest ih =>
    obtain ⟨blocks, hrun, hlen, hblock, hset, hds⟩ := ih (first + 1)
      (history ++ emitFeature env dataset first (transformFeature env.lib mapping f)
        (indexableFields env.lib mapping f.Properties) history)
    refine ⟨emitFeature env dataset first (transformFeature env.lib mapping f)
        (indexableFields env.lib mapping f.Properties) history :: blocks, ?_, ?_, ?_, ?_, ?_⟩
    · rw [loadFeatures_cons env fieldmap dataset mapping hmap, hrun]
      simp
    · simp [hlen]
    · intro j feature hj
      cases j with
      | zero =>
        simp only [List.getElem?_cons_zero, Option.some.injEq] at hj
        simp [hj]
      | succ j =>
        rw [List.getElem?_cons_succ] at hj
        rw [List.getElem?_cons_succ, hblock j feature hj]
        simp only [List.take_succ_cons, List.flatten_cons, List.append_assoc]
        have hidx : first + 1 + j = first + (j + 1) := by omega
        rw [hidx]
    · rw [List.flatten_cons, List.filterMap_append, emitFeature_setIndex, hset]
      simp only [List.enumFrom_cons, List.filterMap_cons, marshalledIndex]
      cases hm : env.MarshalJSON (transformFeature env.lib mapping f) <;> simp
    · intro cmd hc
      rw [List.flatten_cons, List.mem_append] at hc
      rcases hc with hc | hc
      · exact emitFeature_dataset _ _ _ _ _ _ cmd hc
      · exact hds cmd hc

theorem enumFrom_filterMap_marshalledIndex (env : Env) (mapping : GeoFieldMapping)
    (features : List Feature) (first : Nat)
    (hall : ∀ f ∈ features, (env.MarshalJSON (transformFeature env.lib mapping f)).isSome) :
    (features.enumFrom first).filterMap (marshalledIndex env mapping) =
      List.range' first features.length := by
  induction features generalizing first with
  | nil => simp
  | cons f rest ih =>
    have hf := hall f (List.mem_cons_self _ _)
    have hrest := ih (first + 1) (fun g hg => hall g (List.mem_cons_of_mem _ hg))
    simp [List.enumFrom_cons, marshalledIndex, hf, hrest, List.range'_succ]

/-- C8 (as amended): the commands a mapped collection of n features adds to the
connection are n consecutive blocks, block i for the feature at position i of
the decoded collection. When that feature marshals, block i is SET (dataset, i)
followed, exactly when that SET returned no error, by FSET (dataset, i); when it
does not marshal, block i is empty and the feature gets neither command. What
the store answered for earlier features changes no later block's SET. So the
SET indices are, in increasing order, those of the features that marshal, all
of 0..n-1 when every feature does. -/
theorem per_feature_emission (env : Env) (fieldmap : GeoFieldMappings) (dataset : String)
    (mapping : GeoFieldMapping) (data : Bytes) (features : List Feature)
    (history : List Command) (hmap : fieldmap.get dataset = some mapping)
    (hdec : env.Decode data = some features) :
    ∃ blocks : List (List Command),
      loadCollection env fieldmap dataset data history = history ++ blocks.flatten ∧
      blocks.length = features.length ∧
      (∀ i feature, features[i]? = some feature →
        ∃ block, blocks[i]? = some block ∧
          (∀ payload, env.MarshalJSON (transformFeature env.lib mapping feature) = some payload →
            env.Do (history ++ (blocks.take i).flatten) (Command.SET dataset i payload) = true →
            block = [Command.SET dataset i payload,
              Command.FSET dataset i (indexableFields env.lib mapping feature.Properties)]) ∧
          (∀ payload, env.MarshalJSON (transformFeature env.lib mapping feature) = some payload →
            env.Do (history ++ (blocks.take i).flatten) (Command.SET dataset i payload) = false →
            block = [Command.SET dataset i payload]) ∧
          (env.MarshalJSON (transformFeature env.lib mapping feature) = none → block = [])) ∧
      blocks.flatten.filterMap Command.setIndex =
        features.enum.filterMap (marshalledIndex env mapping) ∧
      ((∀ f ∈ features, (env.MarshalJSON (transformFeature env.lib mapping f)).isSome) →
        blocks.flatten.filterMap Command.setIndex = List.range features.length) := by
  obtain ⟨blocks, hrun, hlen, hblock, hset, _⟩ :=
    loadFeatures_blocks env fieldmap dataset mapping hmap features 0 history
  refine ⟨blocks, by simp [loadCollection, hdec, hrun], hlen, ?_, ?_, ?_⟩
  · intro i feature hi
    have hb := hblock i feature hi
    rw [Nat.zero_add] at hb
    refine ⟨_, hb, ?_, ?_, ?_⟩
    · intro payload hm hd
      simp [emitFeature, hm, hd]
    · intro payload hm hd
      simp [emitFeature, hm, hd]
    · intro hm
      simp [emitFeature, hm]
  · simpa [List.enum] using hset
  · intro hall
    rw [hset, enumFrom_filterMap_marshalledIndex env mapping features 0 hall,
      List.range_eq_range']

/-- C8, on the reference host: two features, the store refusing the SET of the
first, give the blocks SET 0 and SET 1, FSET 1. -/
theorem per_feature_emission_witness :
    ∃ blocks : List (List Command),
      loadCollection (directoryHost parksFieldmap
          [("/data/parks.geojson", [1],
            some [{ Geometry := 0, Properties := [("Name", Value.str "Central")] },
              { Geometry := 1, Properties := [("Name", Value.str "Prospect")] }])]
          (fun cmd => cmd.setIndex == some 0)).toEnv parksFieldmap "parks" [1] []
        = [] ++ blocks.flatten ∧
      blocks.length = 2 ∧
      blocks.flatten.filterMap Command.setIndex = List.range 2 := by
  obtain ⟨blocks, h1, h2, _, _, h5⟩ := per_feature_emission
    (directoryHost parksFieldmap
      [("/data/parks.geojson", [1],
        some [{ Geometry := 0, Properties := [("Name", Value.str "Central")] },
          { Geometry := 1, Properties := [("Name", Value.str "Prospect")] }])]
      (fun cmd => cmd.setIndex == some 0)).toEnv parksFieldmap "parks"
    parksMapping [1]
    [{ Geometry := 0, Properties := [("Name", Value.str "Central")] },
      { Geometry := 1, Properties := [("Name", Value.str "Prospect")] }] []
    (by decide) (by decide)
  exact ⟨blocks, h1, h2, h5 (by decide)⟩

/-- C8 as stated fails: a feature whose depth autotypes to a float that is not a
number does not marshal, and no SET is issued for its index 0; the feature after
it is loaded under index 1. The same holds in any environment in which
`MarshalJSON` returns an error for the first feature, here the one of geometry 0. -/
theorem no_set_for_unmarshallable_feature :
    loadCollection (directoryHost parksFieldmap
        [("/data/parks.geojson", [1],
          some [{ Geometry := 0, Properties := [("depth", Value.str "NaN")] },
            { Geometry := 1, Properties := [("Name", Value.str "Central")] }])]
        (fun _ => false)).toEnv parksFieldmap "parks" [1] []
      = [Command.SET "parks" 1
          { encoded := { Geometry := 1, Properties := [("name", Value.str "Central")] } },
        Command.FSET "parks" 1 []] ∧
    loadCollection
        { (directoryHost parksFieldmap
            [("/data/parks.geojson", [1],
              some [{ Geometry := 0, Properties := [("Name", Value.str "Prospect")] },
                { Geometry := 1, Properties := [("Name", Value.str "Central")] }])]
            (fun _ => false)).toEnv with
          MarshalJSON := fun f => if f.Geometry = 0 then none else some { encoded := f } }
        parksFieldmap "parks" [1] []
      = [Command.SET "parks" 1
          { encoded := { Geometry := 1, Properties := [("name", Value.str "Central")] } },
        Command.FSET "parks" 1 []] := by
  decide

/-! ## `t38AutoloadDataFile`, case by case -/

theorem autoload_geojson_reader (env : Env) (fieldmap : GeoFieldMappings)
    (history : List Command) (filename : String) (d : Bytes)
    (hext : Ext filename = ".geojson") :
    t38AutoloadDataFile env fieldmap history filename (some d) =
      loadCollection env fieldmap (datasetName filename) d history := by
  have hgz : ¬ Ext filename = ".gz" := by
    rw [hext]
    decide
  rw [t38AutoloadDataFile]
  simp [hgz, hext]

theorem autoload_geojson_file (env : Env) (fieldmap : GeoFieldMappings)
    (history : List Command) (filename : String) (hext : Ext filename = ".geojson") :
    t38AutoloadDataFile env fieldmap history filename none =
      match env.Open filename with
      | none => history
      | some d => loadCollection env fieldmap (datasetName filename) d history := by
  have hgz : ¬ Ext filename = ".gz" := by
    rw [hext]
    decide
  rw [t38AutoloadDataFile]
  cases env.Open filename <;> simp [hgz, hext]

theorem autoload_gz_file (env : Env) (fieldmap : GeoFieldMappings)
    (history : List Command) (filename : String) (hext : Ext filename = ".gz") :
    t38AutoloadDataFile env fieldmap history filename none =
      match env.Open filename with
      | none => history
      | some file =>
        match env.NewReader file with
        | none => history
        | some gzipreader =>
          t38AutoloadDataFile env fieldmap history (datasetName filename) (some gzipreader) := by
  rw [t38AutoloadDataFile]
  cases hopen : env.Open filename with
  | none => simp
  | some file =>
    cases hread : env.NewReader file <;> simp [hext, hread]

theorem autoload_other_ext (env : Env) (fieldmap : GeoFieldMappings)
    (history : List Command) (filename : String) (data : Option Bytes)
    (hgz : Ext filename ≠ ".gz") (hgeo : Ext filename ≠ ".geojson") :
    t38AutoloadDataFile env fieldmap history filename data = history := by
  cases data with
  | none =>
    rw [t38AutoloadDataFile]
    cases env.Open filename <;> simp [hgz, hgeo]
  | some d =>
    rw [t38AutoloadDataFile]
    simp [hgz, hgeo]

/-! ### Paths of the form directory, name, extension -/

theorem takeWhile_not_separator (name : List Char) (rest : List Char)
    (hname : ∀ c ∈ name, IsPathSeparator c = false) :
    (name.reverse ++ '/' :: rest).takeWhile (fun c => !IsPathSeparator c) = name.reverse := by
  rw [List.takeWhile_append_of_pos]
  · simp [List.takeWhile, IsPathSeparator]
  · intro c hc
    simp [hname c (List.mem_reverse.mp hc)]

theorem takeWhile_not_separator_all (name : List Char)
    (hname : ∀ c ∈ name, IsPathSeparator c = false) :
    name.reverse.takeWhile (fun c => !IsPathSeparator c) = name.reverse := by
  rw [List.takeWhile_eq_self_iff]
  intro c hc
  simp [hname c (List.mem_reverse.mp hc)]

/-- A file `name` with extension `.geojson` in directory `dir`. -/
theorem geojson_path (dir name : String) (hname : ∀ c ∈ name.data, IsPathSeparator c = false) :
    Ext (dir ++ "/" ++ name ++ ".geojson") = ".geojson" ∧
    datasetName (dir ++ "/" ++ name ++ ".geojson") = name := by
  have hr : (dir ++ "/" ++ name ++ ".geojson").data.reverse =
      ['n', 'o', 's', 'j', 'o', 'e', 'g'] ++ '.' :: (name.data.reverse ++ '/' :: dir.data.reverse) := by
    simp [String.data_append]
  have h := ext_datasetName_of_reverse _ _ _ hr (by decide)
  rw [takeWhile_not_separator name.data _ hname] at h
  exact ⟨h.1, by simpa using h.2⟩

/-- The name the recursive call of line 119 is made with: no directory. -/
theorem geojson_name (name : String) (hname : ∀ c ∈ name.data, IsPathSeparator c = false) :
    Ext (name ++ ".geojson") = ".geojson" ∧ datasetName (name ++ ".geojson") = name := by
  have hr : (name ++ ".geojson").data.reverse =
      ['n', 'o', 's', 'j', 'o', 'e', 'g'] ++ '.' :: name.data.reverse := by
    simp [String.data_append]
  have h := ext_datasetName_of_reverse _ _ _ hr (by decide)
  rw [takeWhile_not_separator_all name.data hname] at h
  exact ⟨h.1, by simpa using h.2⟩

/-- A compressed file `name.geojson.gz` in directory `dir`. -/
theorem gz_path (dir name : String) (hname : ∀ c ∈ name.data, IsPathSeparator c = false) :
    Ext (dir ++ "/" ++ name ++ ".geojson.gz") = ".gz" ∧
    datasetName (dir ++ "/" ++ name ++ ".geojson.gz") = name ++ ".geojson" := by
  have hr : (dir ++ "/" ++ name ++ ".geojson.gz").data.reverse =
      ['z', 'g'] ++ '.' :: ((name ++ ".geojson").data.reverse ++ '/' :: dir.data.reverse) := by
    simp [String.data_append]
  have hinner : ∀ c ∈ (name ++ ".geojson").data, IsPathSeparator c = false := by
    intro c hc
    simp only [String.data_append, List.mem_append] at hc
    rcases hc with hc | hc
    · exact hname c hc
    · revert c
      decide
  have h := ext_datasetName_of_reverse _ _ _ hr (by decide)
  rw [takeWhile_not_separator (name ++ ".geojson").data _ hinner] at h
  exact ⟨h.1, by simpa using h.2⟩

/-! ## C9: dataset names -/

theorem loadFeatures_unmapped (env : Env) (fieldmap : GeoFieldMappings) (dataset : String)
    (hmap : fieldmap.get dataset = none) (features : List Feature) (i : Nat)
    (history : List Command) :
    loadFeatures env fieldmap dataset features i history = history := by
  cases features with
  | nil => rfl
  | cons f rest => simp [loadFeatures, hmap]

theorem loadCollection_unmapped (env : Env) (fieldmap : GeoFieldMappings) (dataset : String)
    (hmap : fieldmap.get dataset = none) (data : Bytes) (history : List Command) :
    loadCollection env fieldmap dataset data history = history := by
  unfold loadCollection
  cases env.Decode data with
  | none => rfl
  | some features => exact loadFeatures_unmapped env fieldmap dataset hmap features 0 history

theorem loadCollection_undecoded (env : Env) (fieldmap : GeoFieldMappings) (dataset : String)
    (data : Bytes) (hdec : env.Decode data = none) (history : List Command) :
    loadCollection env fieldmap dataset data history = history := by
  simp [loadCollection, hdec]

/-- A collection only adds commands keyed by its dataset name. -/
theorem loadCollection_dataset (env : Env) (fieldmap : GeoFieldMappings) (dataset : String)
    (data : Bytes) (history : List Command) :
    ∃ added, loadCollection env fieldmap dataset data history = history ++ added ∧
      ∀ cmd ∈ added, cmd.dataset = dataset := by
  cases hmap : fieldmap.get dataset with
  | none => exact ⟨[], by simp [loadCollection_unmapped env fieldmap dataset hmap], by simp⟩
  | some mapping =>
    cases hdec : env.Decode data with
    | none => exact ⟨[], by simp [loadCollection, hdec], by simp⟩
    | some features =>
      obtain ⟨blocks, hrun, _, _, _, hds⟩ :=
        loadFeatures_blocks env fieldmap dataset mapping hmap features 0 history
      exact ⟨blocks.flatten, by simp [loadCollection, hdec, hrun], hds⟩

/-- C9: for a directory D and a file name N (no separator in it), the dataset
name of D/N.geojson is N, and that of D/N.geojson.gz is N.geojson, on which the
function calls itself with the decompressed reader and arrives at N. In both
cases the collection is loaded under N: the registry is read at N (with no
entry for N nothing is issued) and every command added is keyed by N. -/
theorem dataset_name_derivation (env : Env) (fieldmap : GeoFieldMappings)
    (history : List Command) (dir name : String)
    (hname : ∀ c ∈ name.data, IsPathSeparator c = false) :
    datasetName (dir ++ "/" ++ name ++ ".geojson") = name ∧
    datasetName (dir ++ "/" ++ name ++ ".geojson.gz") = name ++ ".geojson" ∧
    datasetName (name ++ ".geojson") = name ∧
    t38AutoloadDataFile env fieldmap history (dir ++ "/" ++ name ++ ".geojson") none =
      (match env.Open (dir ++ "/" ++ name ++ ".geojson") with
        | none => history
        | some d => loadCollection env fieldmap name d history) ∧
    t38AutoloadDataFile env fieldmap history (dir ++ "/" ++ name ++ ".geojson.gz") none =
      (match env.Open (dir ++ "/" ++ name ++ ".geojson.gz") with
        | none => history
        | some file =>
          match env.NewReader file with
          | none => history
          | some gzipreader =>
            t38AutoloadDataFile env fieldmap history (name ++ ".geojson") (some gzipreader)) ∧
    (∀ gzipreader, t38AutoloadDataFile env fieldmap history (name ++ ".geojson")
        (some gzipreader) = loadCollection env fieldmap name gzipreader history) ∧
    (∀ d, ∃ added, loadCollection env fieldmap name d history = history ++ added ∧
      ∀ cmd ∈ added, cmd.dataset = name) ∧
    (fieldmap.get name = none → ∀ d, loadCollection env fieldmap name d history = history) := by
  have hgeo := geojson_path dir name hname
  have hgz := gz_path dir name hname
  have hin := geojson_name name hname
  refine ⟨hgeo.2, hgz.2, hin.2, ?_, ?_, ?_, ?_, ?_⟩
  · rw [autoload_geojson_file env fieldmap history _ hgeo.1, hgeo.2]
  · rw [autoload_gz_file env fieldmap history _ hgz.1, hgz.2]
  · intro gzipreader
    rw [autoload_geojson_reader env fieldmap history _ gzipreader hin.1, hin.2]
  · intro d
    exact loadCollection_dataset env fieldmap name d history
  · intro hmap d
    exact loadCollection_unmapped env fieldmap name hmap d history

/-- C9, for the directory /data and the name parks. -/
theorem dataset_name_derivation_witness :
    datasetName ("/data" ++ "/" ++ "parks" ++ ".geojson") = "parks" ∧
    datasetName ("/data" ++ "/" ++ "parks" ++ ".geojson.gz") = "parks" ++ ".geojson" ∧
    datasetName ("parks" ++ ".geojson") = "parks" :=
  have h := dataset_name_derivation (directoryHost parksFieldmap [] (fun _ => false)).toEnv
    parksFieldmap [] "/data" "parks" (by decide)
  ⟨h.1, h.2.1, h.2.2.1⟩

/-! ## C6: files that load nothing -/

theorem loadCollection_of_bad (env : Env) (fieldmap : GeoFieldMappings) (dataset : String)
    (d : Bytes) (history : List Command)
    (h : (fieldmap.get dataset).isNone = true ∨ (env.Decode d).isNone = true) :
    loadCollection env fieldmap dataset d history = history := by
  rcases h with h | h
  · exact loadCollection_unmapped env fieldmap dataset (by simpa using h) d history
  · exact loadCollection_undecoded env fieldmap dataset d (by simpa using h) history

/-- An unmapped or corrupt file adds no command to the connection. -/
theorem autoload_unmappedOrCorrupt (env : Env) (fieldmap : GeoFieldMappings)
    (filename : String) (hbad : unmappedOrCorrupt env fieldmap filename = true)
    (history : List Command) :
    t38AutoloadDataFile env fieldmap history filename none = history := by
  unfold unmappedOrCorrupt at hbad
  by_cases hgeo : Ext filename = ".geojson"
  · rw [if_pos hgeo] at hbad
    rw [autoload_geojson_file env fieldmap history filename hgeo]
    cases hopen : env.Open filename with
    | none => rfl
    | some d =>
      simp only [hopen, Bool.or_eq_true] at hbad
      exact loadCollection_of_bad env fieldmap _ d history hbad
  · rw [if_neg hgeo] at hbad
    by_cases hgz : Ext filename = ".gz" ∧ Ext (datasetName filename) = ".geojson"
    · rw [if_pos hgz] at hbad
      rw [autoload_gz_file env fieldmap history filename hgz.1]
      cases hopen : env.Open filename with
      | none => rfl
      | some file =>
        dsimp only
        cases hread : env.NewReader file with
        | none => rfl
        | some gzipreader =>
          simp only [hopen, hread, Bool.or_eq_true] at hbad
          dsimp only
          rw [autoload_geojson_reader env fieldmap history _ gzipreader hgz.2]
          exact loadCollection_of_bad env fieldmap _ gzipreader history hbad
    · rw [if_neg hgz] at hbad
      exact absurd hbad (by decide)

theorem loadFiles_append (env : Env) (fieldmap : GeoFieldMappings) (pre post : List String)
    (history : List Command) :
    loadFiles env fieldmap (pre ++ post) history =
      loadFiles env fieldmap post (loadFiles env fieldmap pre history) := by
  simp [loadFiles, List.foldl_append]

theorem loadFiles_skip (env : Env) (fieldmap : GeoFieldMappings) (pre post : List String)
    (filename : String) (history : List Command)
    (hskip : ∀ h, t38AutoloadDataFile env fieldmap h filename none = h) :
    loadFiles env fieldmap (pre ++ filename :: post) history =
      loadFiles env fieldmap (pre ++ post) history := by
  rw [loadFiles_append, loadFiles_append]
  simp [loadFiles, List.foldl_cons, hskip]

/-- The function `LoadTile38` once the field map is loaded, on a given listing. -/
theorem LoadTile38_withFiles (host : Host) (address dir : String) (fieldmap : GeoFieldMappings)
    (files : List String) (hfm : loadFieldmap host dir = Except.ok fieldmap) :
    LoadTile38 (host.withFiles files) address dir =
      if dir ≠ "" ∧ address ≠ "" then
        if host.WaitForOpen address then
          if host.Dial address then
            match host.ExpandUser dir with
            | some _ => (none, loadFiles host.toEnv fieldmap files [])
            | none => (some LoadError.expandUser, [])
          else (some LoadError.dial, [])
        else (some LoadError.couldNotConnect, [])
      else (some LoadError.mustSpecify, []) := by
  have hfm1 : loadFieldmap (host.withFiles files) dir = Except.ok fieldmap := by
    rw [← hfm]
    rfl
  unfold LoadTile38
  rw [hfm1]
  rfl

/-- C6: a discovered file whose dataset name has no registry entry, or whose
content does not decode as a feature collection, adds no command (SET or FSET)
to the connection, whatever was issued before it; the error `LoadTile38` returns
and the commands it issues are the same with the file in the directory listing
as without it, and the error is nil once the store is reached. -/
theorem per_file_isolation (host : Host) (address dir : String) (fieldmap : GeoFieldMappings)
    (pre post : List String) (filename : String)
    (hfm : loadFieldmap host dir = Except.ok fieldmap)
    (hbad : unmappedOrCorrupt host.toEnv fieldmap filename = true) :
    (∀ history, t38AutoloadDataFile host.toEnv fieldmap history filename none = history) ∧
    LoadTile38 (host.withFiles (pre ++ filename :: post)) address dir =
      LoadTile38 (host.withFiles (pre ++ post)) address dir ∧
    (dir ≠ "" → address ≠ "" → host.WaitForOpen address = true → host.Dial address = true →
      host.ExpandUser dir ≠ none →
      LoadTile38 (host.withFiles (pre ++ filename :: post)) address dir =
        (none, loadFiles host.toEnv fieldmap (pre ++ post) [])) := by
  have hskip := autoload_unmappedOrCorrupt host.toEnv fieldmap filename hbad
  have hfiles := loadFiles_skip host.toEnv fieldmap pre post filename [] hskip
  refine ⟨hskip, ?_, ?_⟩
  · rw [LoadTile38_withFiles host address dir fieldmap _ hfm,
      LoadTile38_withFiles host address dir fieldmap _ hfm, hfiles]
  · intro hdir haddr hwait hdial hexp
    obtain ⟨d, hd⟩ := Option.ne_none_iff_exists'.mp hexp
    rw [LoadTile38_withFiles host address dir fieldmap _ hfm, hfiles]
    simp [hdir, haddr, hwait, hdial, hd]

/-- C6, on the reference host: the unmapped lakes file before the parks file. -/
theorem per_file_isolation_witness :
    (∀ history, t38AutoloadDataFile (directoryHost parksFieldmap lakesAndParks
        (fun _ => false)).toEnv parksFieldmap history "/data/lakes.geojson" none = history) ∧
    LoadTile38 ((directoryHost parksFieldmap lakesAndParks (fun _ => false)).withFiles
        ([] ++ "/data/lakes.geojson" :: ["/data/parks.geojson"])) "localhost:9851" "/data" =
      LoadTile38 ((directoryHost parksFieldmap lakesAndParks (fun _ => false)).withFiles
        ([] ++ ["/data/parks.geojson"])) "localhost:9851" "/data" :=
  have h := per_file_isolation (directoryHost parksFieldmap lakesAndParks (fun _ => false))
    "localhost:9851" "/data" parksFieldmap [] ["/data/parks.geojson"] "/data/lakes.geojson"
    rfl (by decide)
  ⟨h.1, h.2.1⟩

/-! ## C7: end to end -/

theorem LoadTile38_parksHost (fieldmap : GeoFieldMappings) (filename : String) :
    LoadTile38 (parksHost fieldmap filename) "localhost:9851" "/data" =
      (none, t38AutoloadDataFile (parksHost fieldmap filename).toEnv fieldmap [] filename none) :=
  rfl

/-- C7 (as amended): loading a directory that contains parks.geojson with the one
feature Name Central, under the mapping underscore, Name to park_name for parks
and a store that accepts the commands, returns nil and issues exactly SET
(parks, 0, OBJECT, payload), the payload's properties being name Central (the
key is normalized to name before the rename rules are tried, so the rule with
source Name does not apply), followed by FSET (parks, 0) with no key/value
arguments. With the rule written name to park_name the payload's properties are
park_name Central. -/
theorem end_to_end_parks :
    LoadTile38 (parksHost parksFieldmap "/data/parks.geojson") "localhost:9851" "/data" =
      (none, [Command.SET "parks" 0
          { encoded := { Geometry := 0, Properties := [("name", Value.str "Central")] } },
        Command.FSET "parks" 0 []]) ∧
    LoadTile38 (parksHost { Types := [("parks",
          { parksMapping with Rename := [["name", "park_name"]] })] } "/data/parks.geojson")
        "localhost:9851" "/data" =
      (none, [Command.SET "parks" 0
          { encoded := { Geometry := 0, Properties := [("park_name", Value.str "Central")] } },
        Command.FSET "parks" 0 []]) := by
  constructor
  · rw [LoadTile38_parksHost, autoload_geojson_file _ _ _ _ (by decide)]
    decide
  · rw [LoadTile38_parksHost, autoload_geojson_file _ _ _ _ (by decide)]
    decide

/-- C7 as stated fails: for the file parks.json no command is issued at all, the
extension being neither .gz nor .geojson; and for parks.geojson the payload of
the SET has the key name, and no key park_name. -/
theorem end_to_end_as_stated_refuted :
    LoadTile38 (parksHost parksFieldmap "/data/parks.json") "localhost:9851" "/data"
      = (none, []) ∧
    (∃ payload, LoadTile38 (parksHost parksFieldmap "/data/parks.geojson")
        "localhost:9851" "/data" =
        (none, [Command.SET "parks" 0 payload, Command.FSET "parks" 0 []]) ∧
      mapGet payload.encoded.Properties "park_name" = none ∧
      mapGet payload.encoded.Properties "name" = some (Value.str "Central")) := by
  constructor
  · rw [LoadTile38_parksHost, autoload_other_ext _ _ _ _ _ (by decide) (by decide)]
  · refine ⟨{ encoded := { Geometry := 0, Properties := [("name", Value.str "Central")] } },
      ?_, by decide, by decide⟩
    rw [LoadTile38_parksHost, autoload_geojson_file _ _ _ _ (by decide)]
    decide

end Geofriend
